import Mathlib

/-
Verification of the oauthmeow repository core: the coordinator's pending-join
queue (src/main.py), the pattern counter, the counter store and the consumer's
reconciliation loop (src/meow_bot.py), shallowly embedded in Lean.

Conventions of the embedding:
* wall-clock seconds are `Int` (the Python code only ever compares
  differences of `time.time()` values against integer thresholds);
* a JSON timestamp field is `TsVal`: either a numeric value (a numeric
  string such as `str(int(time.time()))`, or a number) that Python's
  `float()` accepts, or the literal string `'manual'` on which `float()`
  raises `ValueError` (modelled as `Except.error ()`);
* each SQLite table is a list of row structures; `INSERT ... ON CONFLICT
  DO UPDATE` updates the first row with the matching key (under the
  table's PRIMARY KEY there is at most one) and otherwise appends;
  `INSERT OR REPLACE` replaces the matching row with a fresh row whose
  unnamed columns take their declared defaults;
* `datetime.now().isoformat()` values are opaque `String` arguments
  threaded into the operations that record them.
-/

/-- A timestamp field of a queue entry: a value `float()` can parse, or the
literal `'manual'` default used by `add_channel_manually`. -/
inductive TsVal where
  | num (t : Int)
  | manual
deriving DecidableEq, Repr

/-- One element of the coordinator's `pending_channels` list
(src/main.py). -/
structure PendingEntry where
  channel : String
  display_name : String
  user_id : Option String
  timestamp : TsVal
deriving DecidableEq, Repr

/-- One element of the coordinator's `processed_channels` list
(src/main.py, diagnostics only). -/
structure ProcessedRec where
  channel : String
  processed_time : Int
deriving DecidableEq, Repr

/-- The coordinator process state: the two module-level lists of
src/main.py. -/
structure ServerState where
  pending : List PendingEntry
  processed : List ProcessedRec
deriving DecidableEq, Repr

/-- Fresh coordinator state (both module-level lists start empty). -/
def emptyServer : ServerState := { pending := [], processed := [] }

/-- The enqueue performed by `authorize_bot` (src/main.py lines 184-190)
after the external OAuth exchange resolved the channel: appends an entry
whose timestamp is `str(int(time.time()))`, a numeric string. -/
def authorize_bot_enqueue (now : Int) (channel display uid : String)
    (s : ServerState) : ServerState :=
  { s with pending := s.pending ++
      [{ channel := channel, display_name := display, user_id := some uid,
         timestamp := TsVal.num now }] }

/-- Request body of `POST /api/add-channel`: `channel` is required,
`display_name` and `timestamp` are optional. -/
structure AddChannelBody where
  channel : String
  display_name : Option String
  timestamp : Option TsVal
deriving DecidableEq, Repr

/-- `add_channel_manually` (src/main.py lines 118-132): appends an entry;
an absent `display_name` defaults to the channel and an absent `timestamp`
defaults to the string `'manual'`. -/
def add_channel_manually (b : AddChannelBody) (s : ServerState) : ServerState :=
  { s with pending := s.pending ++
      [{ channel := b.channel,
         display_name := b.display_name.getD b.channel,
         user_id := none,
         timestamp := b.timestamp.getD TsVal.manual }] }

/-- Python's `float()` applied to a stored timestamp value: parses a numeric
value, raises `ValueError` on the string `'manual'`. -/
def pyFloat : TsVal → Except Unit Int
  | TsVal.num t => Except.ok t
  | TsVal.manual => Except.error ()

/-- The freshness test of src/main.py lines 68-71 on an entry whose
timestamp `float()` accepts: age strictly below the 300-second retention
window. An entry with the `'manual'` timestamp never reaches this test
(the conversion raises first); the `false` branch is a total-function
completion. -/
def isFresh (now : Int) (e : PendingEntry) : Bool :=
  match e.timestamp with
  | TsVal.num t => decide (now - t < 300)
  | TsVal.manual => false

/-- The `for channel_info in pending_channels` loop of
`get_pending_channels` (src/main.py lines 67-81): converts each timestamp
with `float()` (first failure aborts the request), collects the fresh
entries to send, and appends fresh channels not yet recorded to the
`processed_channels` list. Returns the loop's outcome together with the
`processed_channels` value at the moment the loop stops (in-place appends
performed before an exception persist). -/
def drainStep (now : Int) :
    List PendingEntry → List ProcessedRec →
    Except Unit (List PendingEntry) × List ProcessedRec
  | [], procd => (Except.ok [], procd)
  | e :: es, procd =>
    match pyFloat e.timestamp with
    | Except.error u => (Except.error u, procd)
    | Except.ok t =>
      if now - t < 300 then
        let procd1 :=
          if e.channel ∈ procd.map ProcessedRec.channel then procd
          else procd ++ [{ channel := e.channel, processed_time := now }]
        match drainStep now es procd1 with
        | (Except.ok rest, p) => (Except.ok (e :: rest), p)
        | (Except.error u, p) => (Except.error u, p)
      else
        drainStep now es procd

/-- The retention filter of src/main.py line 87: keeps entries younger than
300 seconds, converting each timestamp with `float()` (which can raise). -/
def filterFresh (now : Int) : List PendingEntry → Except Unit (List PendingEntry)
  | [] => Except.ok []
  | e :: es =>
    match pyFloat e.timestamp with
    | Except.error u => Except.error u
    | Except.ok t =>
      match filterFresh now es with
      | Except.error u => Except.error u
      | Except.ok rest =>
        if now - t < 300 then Except.ok (e :: rest) else Except.ok rest

/-- `GET /api/pending-channels` (src/main.py lines 55-92): runs the send
loop, then prunes `processed_channels` to one hour and `pending_channels`
to the 300-second window. Returns the HTTP outcome (the list sent, or the
propagated `ValueError`) and the resulting module-level state; on an
exception the `pending_channels` list is left unchanged. -/
def get_pending_channels (now : Int) (s : ServerState) :
    Except Unit (List PendingEntry) × ServerState :=
  let r := drainStep now s.pending s.processed
  match r.1 with
  | Except.error u => (Except.error u, { s with processed := r.2 })
  | Except.ok send =>
    let procd2 := r.2.filter (fun p => decide (now - p.processed_time < 3600))
    match filterFresh now s.pending with
    | Except.ok fresh =>
        (Except.ok send, { pending := fresh, processed := procd2 })
    | Except.error u =>
        (Except.error u, { pending := s.pending, processed := procd2 })

/-- Python's `str.lower()`: per-character lowercase folding. -/
def strLower (s : String) : String := String.mk (s.data.map Char.toLower)

/-
Pattern counter (src/meow_bot.py lines 630-641, `_count_overlapping_meows`).
Text is a list of characters; Python's `str.find(pat, start)` (leftmost
occurrence at a position at least `start`, or -1) and the `while` loop are
embedded with an explicit fuel argument that bounds the number of scan
steps; with fuel at least `text.length + 1 - start` (the number of
candidate start positions left) both functions compute exactly the Python
semantics, and `pyFind` / `countLoop` below instantiate that bound.
-/

/-- The pattern occurs in `text` starting at position `p` (the slice of
`pat.length` characters beginning at `p` exists and equals `pat`). -/
def occursAt (pat text : List Char) (p : Nat) : Bool :=
  decide ((text.drop p).take pat.length = pat)

/-- Scan positions upward from `start` looking for an occurrence;
`fuel` bounds the scan. -/
def pyFindAux (pat text : List Char) : Nat → Nat → Option Nat
  | 0, _ => none
  | fuel + 1, start =>
    if start > text.length then none
    else if occursAt pat text start then some start
    else pyFindAux pat text fuel (start + 1)

/-- `text.find(pat, start)` of Python: least position `p ≥ start` at which
`pat` occurs, or `none` (Python's -1). -/
def pyFind (pat text : List Char) (start : Nat) : Option Nat :=
  pyFindAux pat text (text.length + 1 - start) start

/-- The `while True` loop of `_count_overlapping_meows`: find the next
occurrence, count it, resume at `pos + 1`; `fuel` bounds the iterations. -/
def countLoopAux (pat text : List Char) : Nat → Nat → Nat → Nat
  | 0, _, count => count
  | fuel + 1, start, count =>
    match pyFind pat text start with
    | none => count
    | some pos => countLoopAux pat text fuel (pos + 1) (count + 1)

/-- The counting loop started with enough fuel for every possible
iteration (each iteration advances `start` by at least one). -/
def countLoop (pat text : List Char) (start count : Nat) : Nat :=
  countLoopAux pat text (text.length + 1 - start) start count

/-- The hard-coded pattern of the bot. -/
def meowPat : List Char := ['m', 'e', 'o', 'w']

/-- `MeowBot._count_overlapping_meows` (src/meow_bot.py lines 630-641):
lowercase-fold the text, then run the find/resume-at-plus-one loop with
the pattern `'meow'`, starting at position 0 with count 0. -/
def count_overlapping_meows (text : List Char) : Nat :=
  countLoop meowPat (text.map Char.toLower) 0 0

/-- Specification-side count: the number of positions of the text at which
the pattern starts. -/
def patternStartCount (pat text : List Char) : Nat :=
  ((Finset.range text.length).filter (fun p => occursAt pat text p = true)).card

/-- The occurrence positions at or after `lo` (candidate positions range
over `0 .. text.length`). -/
def occSet (pat text : List Char) (lo : Nat) : Finset ℕ :=
  (Finset.range (text.length + 1)).filter
    (fun p => lo ≤ p ∧ occursAt pat text p = true)

/-
Counter store (class MeowDatabase, src/meow_bot.py lines 144-502).
Counts are `Nat`: every column is declared `INTEGER DEFAULT 0` and every
write adds a positive amount (`add_meow` is called with the positive
result of the pattern counter), matching the data model's non-negative
counters.
-/

/-- A row of the `user_meows` table (PRIMARY KEY (user_id, channel)). -/
structure UserMeowRow where
  user_id : String
  channel : String
  meow_count : Nat
  first_meow_date : String
  last_meow_date : String
deriving DecidableEq, Repr

/-- A row of the `streamer_totals` table (PRIMARY KEY channel). -/
structure StreamerRow where
  channel : String
  total_meows : Nat
  first_meow_date : String
  last_meow_date : String
deriving DecidableEq, Repr

/-- A row of the `user_global_stats` table (PRIMARY KEY user_id). -/
structure GlobalStatsRow where
  user_id : String
  total_meows : Nat
  channels_count : Nat
  first_meow_date : String
  last_meow_date : String
  last_updated : String
deriving DecidableEq, Repr

/-- A row of the `channel_settings` table (PRIMARY KEY channel); the
declared defaults are `global_access = 0`, `bot_enabled = 1`,
`join_approved = 0`, `setup_date` NULL. -/
structure SettingsRow where
  channel : String
  global_access : Bool
  bot_enabled : Bool
  join_approved : Bool
  setup_date : Option String
deriving DecidableEq, Repr

/-- The four tables of the bot database. -/
structure MeowDB where
  user_meows : List UserMeowRow
  streamer_totals : List StreamerRow
  user_global_stats : List GlobalStatsRow
  channel_settings : List SettingsRow
deriving DecidableEq, Repr

/-- A freshly initialised database: all tables empty. -/
def emptyDB : MeowDB :=
  { user_meows := [], streamer_totals := [], user_global_stats := [],
    channel_settings := [] }

/-- The `user_meows` upsert of `add_meow`: on key conflict add `n` to
`meow_count` and set `last_meow_date`, otherwise insert a new row. -/
def upsertUserMeow (u c : String) (n : Nat) (now : String) :
    List UserMeowRow → List UserMeowRow
  | [] => [{ user_id := u, channel := c, meow_count := n,
             first_meow_date := now, last_meow_date := now }]
  | r :: rs =>
    if r.user_id = u ∧ r.channel = c then
      { r with meow_count := r.meow_count + n, last_meow_date := now } :: rs
    else r :: upsertUserMeow u c n now rs

/-- The `streamer_totals` upsert of `add_meow`: on key conflict add `n` to
`total_meows` and set `last_meow_date`, otherwise insert a new row. -/
def upsertStreamerTotal (c : String) (n : Nat) (now : String) :
    List StreamerRow → List StreamerRow
  | [] => [{ channel := c, total_meows := n,
             first_meow_date := now, last_meow_date := now }]
  | r :: rs =>
    if r.channel = c then
      { r with total_meows := r.total_meows + n, last_meow_date := now } :: rs
    else r :: upsertStreamerTotal c n now rs

/-- The `user_global_stats` upsert of `update_user_global_stats`: insert
`(u, n, 1, now, now, now)`, on key conflict add `n` to `total_meows` and
refresh the two date columns. -/
def upsertGlobalStats (u : String) (n : Nat) (now : String) :
    List GlobalStatsRow → List GlobalStatsRow
  | [] => [{ user_id := u, total_meows := n, channels_count := 1,
             first_meow_date := now, last_meow_date := now,
             last_updated := now }]
  | r :: rs =>
    if r.user_id = u then
      { r with total_meows := r.total_meows + n, last_meow_date := now,
               last_updated := now } :: rs
    else r :: upsertGlobalStats u n now rs

/-- `SELECT COUNT(DISTINCT channel) FROM user_meows WHERE user_id = u`. -/
def distinctChannelCount (u : String) (rows : List UserMeowRow) : Nat :=
  (((rows.filter (fun r => decide (r.user_id = u))).map
      UserMeowRow.channel).dedup).length

/-- The `UPDATE user_global_stats SET channels_count = ... WHERE
user_id = u` statement. -/
def setChannelsCount (u : String) (k : Nat) (rows : List GlobalStatsRow) :
    List GlobalStatsRow :=
  rows.map (fun r => if r.user_id = u then { r with channels_count := k } else r)

/-- `MeowDatabase.update_user_global_stats` (src/meow_bot.py lines
336-363): one transaction that upserts the user's global row and then
recomputes `channels_count` from `user_meows`. -/
def update_user_global_stats (now u : String) (n : Nat) (db : MeowDB) : MeowDB :=
  let g1 := upsertGlobalStats u n now db.user_global_stats
  { db with user_global_stats :=
      setChannelsCount u (distinctChannelCount u db.user_meows) g1 }

/-- The first transaction of `add_meow` (the single `with sqlite3.connect`
block, src/meow_bot.py lines 294-329): the `user_meows` and
`streamer_totals` upserts, committed together. -/
def add_meow_txn1 (now u c : String) (n : Nat) (db : MeowDB) : MeowDB :=
  { db with user_meows := upsertUserMeow u c n now db.user_meows,
            streamer_totals := upsertStreamerTotal c n now db.streamer_totals }

/-- `SELECT meow_count FROM user_meows WHERE user_id = u AND channel = c`,
0 when no row exists. -/
def getUserMeows (u c : String) (db : MeowDB) : Nat :=
  ((db.user_meows.find?
      (fun r => decide (r.user_id = u) && decide (r.channel = c))).map
    UserMeowRow.meow_count).getD 0

/-- `SELECT total_meows FROM streamer_totals WHERE channel = c`, 0 when no
row exists. -/
def getStreamerTotal (c : String) (db : MeowDB) : Nat :=
  ((db.streamer_totals.find? (fun r => decide (r.channel = c))).map
    StreamerRow.total_meows).getD 0

/-- `SELECT total_meows FROM user_global_stats WHERE user_id = u`, 0 when
no row exists. -/
def getGlobalTotal (u : String) (db : MeowDB) : Nat :=
  ((db.user_global_stats.find? (fun r => decide (r.user_id = u))).map
    GlobalStatsRow.total_meows).getD 0

/-- `SELECT channels_count FROM user_global_stats WHERE user_id = u`, 0
when no row exists. -/
def getChannelsCount (u : String) (db : MeowDB) : Nat :=
  ((db.user_global_stats.find? (fun r => decide (r.user_id = u))).map
    GlobalStatsRow.channels_count).getD 0

/-- `MeowDatabase.add_meow` (src/meow_bot.py lines 282-334): commit the
first transaction, read back the totals, then run
`update_user_global_stats` (a second, separate connection and commit).
Returns the final database and `(user_total, stream_total,
streamer_total)`. -/
def add_meow (now u c : String) (n : Nat) (db : MeowDB) :
    MeowDB × Nat × Nat × Nat :=
  let db1 := add_meow_txn1 now u c n db
  let user_total := getUserMeows u c db1
  let streamer_total := getStreamerTotal c db1
  let db2 := update_user_global_stats now u n db1
  (db2, user_total, streamer_total, streamer_total)

/-- The durable states an `add_meow` call commits, in order: one for each
of its two `sqlite3.connect` transactions. A crash of the process or of
the storage between the two commits leaves the first state as the final
one. -/
def addMeowCommits (now u c : String) (n : Nat) (db : MeowDB) : List MeowDB :=
  [add_meow_txn1 now u c n db,
   update_user_global_stats now u n (add_meow_txn1 now u c n db)]

/-- `MeowDatabase.approve_channel_join` (src/meow_bot.py lines 436-445):
upsert that only sets `join_approved`, other columns keep their values or
defaults. -/
def approve_channel_join (c : String) : List SettingsRow → List SettingsRow
  | [] => [{ channel := c, global_access := false, bot_enabled := true,
             join_approved := true, setup_date := none }]
  | r :: rs =>
    if r.channel = c then { r with join_approved := true } :: rs
    else r :: approve_channel_join c rs

/-- `MeowDatabase.opt_into_global` (src/meow_bot.py lines 489-502):
`INSERT OR REPLACE INTO channel_settings (channel, global_access) VALUES
(?, 1)` — the replacement row carries the declared defaults for every
column not named, in particular `join_approved = 0`. -/
def opt_into_global (c : String) : List SettingsRow → List SettingsRow
  | [] => [{ channel := c, global_access := true, bot_enabled := true,
             join_approved := false, setup_date := none }]
  | r :: rs =>
    if r.channel = c then
      { channel := c, global_access := true, bot_enabled := true,
        join_approved := false, setup_date := none } :: rs
    else r :: opt_into_global c rs

/-- `MeowDatabase.is_channel_approved` (src/meow_bot.py lines 447-453). -/
def is_channel_approved (c : String) (db : MeowDB) : Bool :=
  match db.channel_settings.find? (fun r => decide (r.channel = c)) with
  | some r => r.join_approved
  | none => false

/-- The fixed allow-list (`default_channels` in `has_global_access` and
`get_global_leaderboard`). -/
def defaultChannels : List String := ["meowcounterbot", "snorlaxbuffet"]

/-- `MeowDatabase.has_global_access` (src/meow_bot.py lines 455-487):
allow-list channels (after lowercasing) always pass; otherwise the stored
`global_access` flag decides (the legacy-column fallback raises
`OperationalError` on the current schema and yields `False`). -/
def has_global_access (c : String) (db : MeowDB) : Bool :=
  if strLower c ∈ defaultChannels then true
  else
    match db.channel_settings.find? (fun r => decide (r.channel = c)) with
    | some r => r.global_access
    | none => false

/-- The `LEFT JOIN channel_settings` read of `cs.global_access` used by the
leaderboard query: `false` when no settings row exists (SQL NULL fails the
`= 1` test). -/
def channelGlobalAccess (c : String) (db : MeowDB) : Bool :=
  match db.channel_settings.find? (fun r => decide (r.channel = c)) with
  | some r => r.global_access
  | none => false

/-- The row selection of `get_global_leaderboard` (src/meow_bot.py lines
403-434): `streamer_totals` rows whose channel has `global_access = 1` or
is on the allow-list. -/
def globalLeaderboardRows (db : MeowDB) : List (String × Nat) :=
  (db.streamer_totals.filter
      (fun r => channelGlobalAccess r.channel db ||
        decide (r.channel ∈ defaultChannels))).map
    (fun r => (r.channel, r.total_meows))

/-- Insert into a list kept in descending order of the total. -/
def insertByTotal (x : String × Nat) : List (String × Nat) → List (String × Nat)
  | [] => [x]
  | y :: ys => if y.2 ≤ x.2 then x :: y :: ys else y :: insertByTotal x ys

/-- `ORDER BY st.total_meows DESC` as an insertion sort. -/
def sortByTotalDesc : List (String × Nat) → List (String × Nat)
  | [] => []
  | x :: xs => insertByTotal x (sortByTotalDesc xs)

/-- `MeowDatabase.get_global_leaderboard` (src/meow_bot.py lines 403-434):
the selected rows, ordered by total descending, truncated to `limit`. -/
def get_global_leaderboard (limit : Nat) (db : MeowDB) : List (String × Nat) :=
  (sortByTotalDesc (globalLeaderboardRows db)).take limit

/-- `MeowBot.load_approved_channels_from_db` (src/meow_bot.py lines
549-604): channels with `join_approved = 1`, extended with channels with
`global_access = 1`, combined with the distinct channels holding a
positive `streamer_totals` total; `list(set(...))` deduplicates (its
arbitrary ordering is modelled as `dedup`). -/
def load_approved_channels_from_db (db : MeowDB) : List String :=
  let approved := (db.channel_settings.filter
      (fun r => r.join_approved)).map SettingsRow.channel
  let globals := (db.channel_settings.filter
      (fun r => r.global_access)).map SettingsRow.channel
  let active := ((db.streamer_totals.filter
      (fun r => decide (0 < r.total_meows))).map StreamerRow.channel).dedup
  ((approved ++ globals) ++ active).dedup

/-- One recorded `recordOccurrence` call: the wall-clock string it is made
at, the user, the channel, the amount. -/
structure MeowCall where
  now : String
  user : String
  channel : String
  amount : Nat
deriving DecidableEq, Repr

/-- Apply a sequence of `add_meow` calls to a database, in order. -/
def applyCalls (calls : List MeowCall) (db : MeowDB) : MeowDB :=
  calls.foldl (fun s k => (add_meow k.now k.user k.channel k.amount s).1) db

/-- The sum of the amounts of the calls naming channel `c`. -/
def sumForChannel (c : String) (calls : List MeowCall) : Nat :=
  ((calls.filter (fun k => decide (k.channel = c))).map MeowCall.amount).sum

/-- The sum, over the `user_meows` rows of channel `c`, of `meow_count`. -/
def userMeowSumForChannel (c : String) (db : MeowDB) : Nat :=
  ((db.user_meows.filter (fun r => decide (r.channel = c))).map
    UserMeowRow.meow_count).sum

/-
Consumer reconciliation loop (`MeowBot.start_railway_polling`,
src/meow_bot.py lines 653-768): the poll thread keeps a local
`processed_channels` set for its whole lifetime; each drained channel is
recorded there before the join is even attempted, and joined/persisted
only when not yet recorded, not yet connected and non-empty.
-/

/-- One element of the drained `channels` list, as the consumer reads it. -/
structure ChannelInfo where
  channel : String
  display_name : String
deriving DecidableEq, Repr

/-- The poll thread's state: the lifetime `processed_channels` set, the
currently connected channels, the log of join actions issued, the log of
persistence writes issued, and the bot database. -/
structure ConsumerState where
  processed : List String
  connected : List String
  joins : List String
  persists : List String
  db : MeowDB
deriving Repr

/-- Poll-thread state at thread start: `processed_channels = set()`. -/
def initConsumer (connected : List String) (db : MeowDB) : ConsumerState :=
  { processed := [], connected := connected, joins := [], persists := [],
    db := db }

/-- The persistence write of the poll loop (src/meow_bot.py lines
742-746): `INSERT OR REPLACE INTO channel_settings (channel,
join_approved, global_access) VALUES (?, 1, 1)`. -/
def persistChannelJoin (c : String) : List SettingsRow → List SettingsRow
  | [] => [{ channel := c, global_access := true, bot_enabled := true,
             join_approved := true, setup_date := none }]
  | r :: rs =>
    if r.channel = c then
      { channel := c, global_access := true, bot_enabled := true,
        join_approved := true, setup_date := none } :: rs
    else r :: persistChannelJoin c rs

/-- The body of `for channel_info in channels` (src/meow_bot.py lines
711-750): lowercase the name; skip if already processed; mark processed
and skip if already connected; otherwise, when the name is non-empty, mark
processed first, then issue the join and the persistence write. -/
def pollHandleChannel (st : ConsumerState) (info : ChannelInfo) : ConsumerState :=
  let name := strLower info.channel
  if name ∈ st.processed then st
  else if name ∈ st.connected then { st with processed := name :: st.processed }
  else if name ≠ "" then
    { st with processed := name :: st.processed,
              joins := st.joins ++ [name],
              persists := st.persists ++ [name],
              db := { st.db with channel_settings :=
                        persistChannelJoin name st.db.channel_settings } }
  else st

/-- Process one drained batch. -/
def pollBatch (st : ConsumerState) (infos : List ChannelInfo) : ConsumerState :=
  infos.foldl pollHandleChannel st

/-- Run the poll loop over a sequence of drained batches. -/
def runPolls (st : ConsumerState) (batches : List (List ChannelInfo)) :
    ConsumerState :=
  batches.foldl pollBatch st

/-
Theorems. Helper lemmas come first, the claim theorems afterwards.
-/

theorem drainStep_fst_ok (now : Int) :
    ∀ (entries : List PendingEntry),
      (∀ e ∈ entries, e.timestamp ≠ TsVal.manual) →
      ∀ procd, (drainStep now entries procd).1 =
        Except.ok (entries.filter (isFresh now)) := by
  intro entries
  induction entries with
  | nil => intro _ procd; simp [drainStep]
  | cons e es ih =>
    intro h procd
    have ht : e.timestamp ≠ TsVal.manual := h e (List.mem_cons_self e es)
    have hes : ∀ x ∈ es, x.timestamp ≠ TsVal.manual :=
      fun x hx => h x (List.mem_cons_of_mem _ hx)
    obtain ⟨t, hts⟩ : ∃ t, e.timestamp = TsVal.num t := by
      cases hcase : e.timestamp with
      | num t => exact ⟨t, rfl⟩
      | manual => exact absurd hcase ht
    by_cases hf : now - t < 300
    · have hfr : isFresh now e = true := by simp [isFresh, hts, hf]
      simp only [drainStep, hts, pyFloat, if_pos hf]
      cases hd : drainStep now es
          (if e.channel ∈ procd.map ProcessedRec.channel then procd
           else procd ++ [{ channel := e.channel, processed_time := now }]) with
      | mk r1 r2 =>
        have hr1 : r1 = Except.ok (es.filter (isFresh now)) := by
          have := ih hes
              (if e.channel ∈ procd.map ProcessedRec.channel then procd
               else procd ++ [{ channel := e.channel, processed_time := now }])
          rw [hd] at this
          exact this
        subst hr1
        simp [hd, List.filter_cons, hfr]
    · have hfr : isFresh now e = false := by simp [isFresh, hts, hf]
      simp only [drainStep, hts, pyFloat, if_neg hf]
      simp [ih hes procd, List.filter_cons, hfr]

theorem drainStep_fst_err (now : Int) :
    ∀ (entries : List PendingEntry),
      (∃ e ∈ entries, e.timestamp = TsVal.manual) →
      ∀ procd, (drainStep now entries procd).1 = Except.error () := by
  intro entries
  induction entries with
  | nil => rintro ⟨e, he, _⟩; exact absurd he (List.not_mem_nil e)
  | cons e es ih =>
    rintro ⟨e0, he0, hm⟩ procd
    cases hcase : e.timestamp with
    | manual => simp [drainStep, hcase, pyFloat]
    | num t =>
      have he0' : e0 ∈ es := by
        rcases List.mem_cons.mp he0 with h | h
        · exact absurd hcase (by rw [← h, hm]; simp)
        · exact h
      have hrec := ih ⟨e0, he0', hm⟩
      by_cases hf : now - t < 300
      · simp only [drainStep, hcase, pyFloat, if_pos hf]
        cases hd : drainStep now es
            (if e.channel ∈ procd.map ProcessedRec.channel then procd
             else procd ++ [{ channel := e.channel, processed_time := now }]) with
        | mk r1 r2 =>
          have hr1 : r1 = Except.error () := by
            have := hrec
                (if e.channel ∈ procd.map ProcessedRec.channel then procd
                 else procd ++ [{ channel := e.channel, processed_time := now }])
            rw [hd] at this
            exact this
          subst hr1
          simp [hd]
      · simp only [drainStep, hcase, pyFloat, if_neg hf]
        exact hrec procd

theorem filterFresh_ok (now : Int) :
    ∀ (entries : List PendingEntry),
      (∀ e ∈ entries, e.timestamp ≠ TsVal.manual) →
      filterFresh now entries = Except.ok (entries.filter (isFresh now)) := by
  intro entries
  induction entries with
  | nil => intro _; simp [filterFresh]
  | cons e es ih =>
    intro h
    have ht : e.timestamp ≠ TsVal.manual := h e (List.mem_cons_self e es)
    have hes : ∀ x ∈ es, x.timestamp ≠ TsVal.manual :=
      fun x hx => h x (List.mem_cons_of_mem _ hx)
    obtain ⟨t, hts⟩ : ∃ t, e.timestamp = TsVal.num t := by
      cases hcase : e.timestamp with
      | num t => exact ⟨t, rfl⟩
      | manual => exact absurd hcase ht
    by_cases hf : now - t < 300
    · have hfr : isFresh now e = true := by simp [isFresh, hts, hf]
      simp [filterFresh, hts, pyFloat, ih hes, List.filter_cons, hfr, hf]
    · have hfr : isFresh now e = false := by simp [isFresh, hts, hf]
      simp [filterFresh, hts, pyFloat, ih hes, List.filter_cons, hfr, hf]

theorem get_pending_channels_ok (now : Int) (s : ServerState)
    (h : ∀ e ∈ s.pending, e.timestamp ≠ TsVal.manual) :
    (get_pending_channels now s).1 =
      Except.ok (s.pending.filter (isFresh now))
    ∧ ((get_pending_channels now s).2).pending =
      s.pending.filter (isFresh now) := by
  simp only [get_pending_channels]
  rw [drainStep_fst_ok now s.pending h s.processed, filterFresh_ok now s.pending h]
  exact ⟨rfl, rfl⟩

theorem get_pending_channels_err (now : Int) (s : ServerState)
    (h : ∃ e ∈ s.pending, e.timestamp = TsVal.manual) :
    (get_pending_channels now s).1 = Except.error ()
    ∧ ((get_pending_channels now s).2).pending = s.pending := by
  simp only [get_pending_channels]
  rw [drainStep_fst_err now s.pending h s.processed]
  exact ⟨rfl, rfl⟩

theorem get_pending_channels_result_subset (now : Int) (s : ServerState)
    (l : List PendingEntry) (hl : (get_pending_channels now s).1 = Except.ok l) :
    l ⊆ s.pending := by
  by_cases h : ∀ e ∈ s.pending, e.timestamp ≠ TsVal.manual
  · have := (get_pending_channels_ok now s h).1
    rw [this] at hl
    cases hl
    exact (List.filter_sublist _).subset
  · have hx : ∃ e ∈ s.pending, e.timestamp = TsVal.manual := by
      push_neg at h
      exact h
    have := (get_pending_channels_err now s hx).1
    rw [this] at hl
    cases hl

theorem get_pending_channels_pending_subset (now : Int) (s : ServerState) :
    ((get_pending_channels now s).2).pending ⊆ s.pending := by
  by_cases h : ∀ e ∈ s.pending, e.timestamp ≠ TsVal.manual
  · rw [(get_pending_channels_ok now s h).2]
    exact (List.filter_sublist _).subset
  · have hx : ∃ e ∈ s.pending, e.timestamp = TsVal.manual := by
      push_neg at h
      exact h
    rw [(get_pending_channels_err now s hx).2]
    exact fun x hx => hx

/-- C4: a drain returns exactly the pending entries inside the 5-minute
retention window and keeps them pending (so each later drain inside the
window still observes them), purges the entries outside the window from
both the reply and the kept queue, and no drain ever adds an entry, so a
purged entry never reappears in a later drain. Stated for a queue whose
timestamps `float()` accepts (the request otherwise raises, see C10). -/
theorem drain_retention_window (now : Int) (s : ServerState)
    (h : ∀ e ∈ s.pending, e.timestamp ≠ TsVal.manual) :
    (get_pending_channels now s).1 =
        Except.ok (s.pending.filter (isFresh now))
    ∧ ((get_pending_channels now s).2).pending =
        s.pending.filter (isFresh now)
    ∧ (∀ e ∈ s.pending, isFresh now e = true →
        (∀ l, (get_pending_channels now s).1 = Except.ok l → e ∈ l)
        ∧ e ∈ ((get_pending_channels now s).2).pending)
    ∧ (∀ e ∈ s.pending, isFresh now e = false →
        (∀ l, (get_pending_channels now s).1 = Except.ok l → e ∉ l)
        ∧ e ∉ ((get_pending_channels now s).2).pending)
    ∧ (∀ (now2 : Int) (s2 : ServerState) (l2 : List PendingEntry),
        (get_pending_channels now2 s2).1 = Except.ok l2 → l2 ⊆ s2.pending)
    ∧ (∀ (now2 : Int) (s2 : ServerState),
        ((get_pending_channels now2 s2).2).pending ⊆ s2.pending) := by
  obtain ⟨h1, h2⟩ := get_pending_channels_ok now s h
  refine ⟨h1, h2, ?_, ?_, ?_, ?_⟩
  · intro e he hf
    have hmem : e ∈ s.pending.filter (isFresh now) :=
      List.mem_filter.mpr ⟨he, hf⟩
    refine ⟨?_, by rw [h2]; exact hmem⟩
    intro l hl
    rw [h1] at hl
    cases hl
    exact hmem
  · intro e he hf
    have hmem : e ∉ s.pending.filter (isFresh now) := by
      intro hc
      have := (List.mem_filter.mp hc).2
      rw [hf] at this
      cases this
    refine ⟨?_, by rw [h2]; exact hmem⟩
    intro l hl
    rw [h1] at hl
    cases hl
    exact hmem
  · intro now2 s2 l2 hl2
    exact get_pending_channels_result_subset now2 s2 l2 hl2
  · intro now2 s2
    exact get_pending_channels_pending_subset now2 s2

/-- Witness for C4 at a concrete queue: one entry 100 seconds old, one 500
seconds old, drained at time 100. -/
theorem drain_retention_window_witness :
    (get_pending_channels 100
        { pending :=
            [{ channel := "a", display_name := "A", user_id := none,
               timestamp := TsVal.num 0 },
             { channel := "b", display_name := "B", user_id := none,
               timestamp := TsVal.num (-400) }],
          processed := [] }).1 =
      Except.ok
        (({ pending :=
              [{ channel := "a", display_name := "A", user_id := none,
                 timestamp := TsVal.num 0 },
               { channel := "b", display_name := "B", user_id := none,
                 timestamp := TsVal.num (-400) }],
            processed := [] } : ServerState).pending.filter (isFresh 100)) :=
  (drain_retention_window 100
    { pending :=
        [{ channel := "a", display_name := "A", user_id := none,
           timestamp := TsVal.num 0 },
         { channel := "b", display_name := "B", user_id := none,
           timestamp := TsVal.num (-400) }],
      processed := [] } (by decide)).1

/-- C10: enqueuing through `POST /api/add-channel` with a body that omits
the timestamp stores the string `'manual'` as the timestamp, and while any
entry with that timestamp is pending, every drain raises `ValueError` at
the `float()` conversion and leaves the pending queue unchanged (so the
failure persists). -/
theorem manual_timestamp_poisons_drain :
    (∀ (b : AddChannelBody) (s : ServerState), b.timestamp = none →
      (add_channel_manually b s).pending = s.pending ++
        [{ channel := b.channel,
           display_name := b.display_name.getD b.channel,
           user_id := none, timestamp := TsVal.manual }])
    ∧ (∀ (now : Int) (s : ServerState),
        (∃ e ∈ s.pending, e.timestamp = TsVal.manual) →
        (get_pending_channels now s).1 = Except.error ()
        ∧ ((get_pending_channels now s).2).pending = s.pending) := by
  constructor
  · intro b s hb
    simp [add_channel_manually, hb]
  · intro now s hx
    exact get_pending_channels_err now s hx

/-- Witness for C10: a timestamp-less body is enqueued into an empty queue
and the next drain errors without touching the queue. -/
theorem manual_timestamp_poisons_drain_witness :
    ((add_channel_manually
        { channel := "foo", display_name := none, timestamp := none }
        emptyServer).pending =
      emptyServer.pending ++
        [{ channel := "foo", display_name := "foo", user_id := none,
           timestamp := TsVal.manual }])
    ∧ (get_pending_channels 100
        { pending :=
            [{ channel := "foo", display_name := "foo", user_id := none,
               timestamp := TsVal.manual }],
          processed := [] }).1 = Except.error () :=
  ⟨manual_timestamp_poisons_drain.1
      { channel := "foo", display_name := none, timestamp := none }
      emptyServer rfl,
   (manual_timestamp_poisons_drain.2 100
      { pending :=
          [{ channel := "foo", display_name := "foo", user_id := none,
             timestamp := TsVal.manual }],
        processed := [] }
      ⟨{ channel := "foo", display_name := "foo", user_id := none,
         timestamp := TsVal.manual }, by decide, rfl⟩).1⟩

/-- C2 counterexample: both enqueue endpoints append unconditionally, so
two `authorize_bot` enqueues of the channel `"foo"` one second apart leave
two unexpired entries for `"foo"` in the queue, and a drain one second
later returns both. This refutes the claimed dedup-by-channel. -/
theorem enqueue_dedup_counterexample :
    ((authorize_bot_enqueue 101 "foo" "Foo" "2"
        (authorize_bot_enqueue 100 "foo" "Foo" "1" emptyServer)).pending.countP
      (fun e => decide (e.channel = "foo")) = 2)
    ∧ ((get_pending_channels 101
        (authorize_bot_enqueue 101 "foo" "Foo" "2"
          (authorize_bot_enqueue 100 "foo" "Foo" "1" emptyServer))).1 =
      Except.ok
        [{ channel := "foo", display_name := "Foo", user_id := some "1",
           timestamp := TsVal.num 100 },
         { channel := "foo", display_name := "Foo", user_id := some "2",
           timestamp := TsVal.num 101 }]) := by
  constructor
  · decide
  · rfl

/-- C2 (amended): `enqueue` appends a new entry with no dedup-by-channel,
so enqueuing a channel twice raises the number of queued entries for that
channel by two, and a drain inside the retention window returns at least
two entries for that channel. -/
theorem enqueue_appends_without_dedup (t1 t2 now : Int)
    (c d1 d2 u1 u2 : String) (s : ServerState)
    (hnum : ∀ e ∈ s.pending, e.timestamp ≠ TsVal.manual)
    (h1 : now - t1 < 300) (h2 : now - t2 < 300) :
    ((authorize_bot_enqueue t2 c d2 u2
        (authorize_bot_enqueue t1 c d1 u1 s)).pending.countP
      (fun e => decide (e.channel = c)) =
      s.pending.countP (fun e => decide (e.channel = c)) + 2)
    ∧ ∃ l, (get_pending_channels now
        (authorize_bot_enqueue t2 c d2 u2
          (authorize_bot_enqueue t1 c d1 u1 s))).1 = Except.ok l
        ∧ 2 ≤ l.countP (fun e => decide (e.channel = c)) := by
  have hpend : (authorize_bot_enqueue t2 c d2 u2
      (authorize_bot_enqueue t1 c d1 u1 s)).pending =
      s.pending ++
        [{ channel := c, display_name := d1, user_id := some u1,
           timestamp := TsVal.num t1 },
         { channel := c, display_name := d2, user_id := some u2,
           timestamp := TsVal.num t2 }] := by
    simp [authorize_bot_enqueue]
  constructor
  · rw [hpend]
    simp [List.countP_append, List.countP_cons]
  · have hnum2 : ∀ e ∈ (authorize_bot_enqueue t2 c d2 u2
        (authorize_bot_enqueue t1 c d1 u1 s)).pending,
        e.timestamp ≠ TsVal.manual := by
      rw [hpend]
      intro e he
      rcases List.mem_append.mp he with h | h
      · exact hnum e h
      · rcases List.mem_cons.mp h with h | h
        · rw [h]; simp
        · rcases List.mem_cons.mp h with h | h
          · rw [h]; simp
          · exact absurd h (List.not_mem_nil e)
    refine ⟨_, (get_pending_channels_ok now _ hnum2).1, ?_⟩
    rw [hpend]
    have hf1 : isFresh now
        { channel := c, display_name := d1, user_id := some u1,
          timestamp := TsVal.num t1 } = true := by simp [isFresh, h1]
    have hf2 : isFresh now
        { channel := c, display_name := d2, user_id := some u2,
          timestamp := TsVal.num t2 } = true := by simp [isFresh, h2]
    rw [List.filter_append, List.countP_append]
    simp [List.filter_cons, hf1, hf2, List.countP_cons]

/-- Witness for the amended C2 at the counterexample's concrete input. -/
theorem enqueue_appends_without_dedup_witness :
    ((authorize_bot_enqueue 101 "foo" "Foo" "2"
        (authorize_bot_enqueue 100 "foo" "Foo" "1" emptyServer)).pending.countP
      (fun e => decide (e.channel = "foo")) =
      emptyServer.pending.countP (fun e => decide (e.channel = "foo")) + 2)
    ∧ ∃ l, (get_pending_channels 101
        (authorize_bot_enqueue 101 "foo" "Foo" "2"
          (authorize_bot_enqueue 100 "foo" "Foo" "1" emptyServer))).1 =
        Except.ok l
        ∧ 2 ≤ l.countP (fun e => decide (e.channel = "foo")) :=
  enqueue_appends_without_dedup 100 101 101 "foo" "Foo" "Foo" "1" "2"
    emptyServer (by decide) (by decide) (by decide)

theorem userMeows_lookup_upsert (u c : String) (n : Nat) (now : String) :
    ∀ rows : List UserMeowRow,
      (((upsertUserMeow u c n now rows).find?
          (fun r => decide (r.user_id = u) && decide (r.channel = c))).map
        UserMeowRow.meow_count).getD 0 =
      ((rows.find?
          (fun r => decide (r.user_id = u) && decide (r.channel = c))).map
        UserMeowRow.meow_count).getD 0 + n := by
  intro rows
  induction rows with
  | nil => simp [upsertUserMeow]
  | cons r rs ih =>
    by_cases hm : r.user_id = u ∧ r.channel = c
    · simp [upsertUserMeow, if_pos hm, List.find?_cons_of_pos, hm.1, hm.2]
    · have hp : (decide (r.user_id = u) && decide (r.channel = c)) = false := by
        simp only [Bool.and_eq_false_iff, decide_eq_false_iff_not]
        tauto
      simp only [upsertUserMeow, if_neg hm]
      rw [List.find?_cons_of_neg _ (by simp [hp]),
        List.find?_cons_of_neg _ (by simp [hp])]
      exact ih

theorem streamerTotal_lookup_upsert (c cq : String) (n : Nat) (now : String) :
    ∀ rows : List StreamerRow,
      (((upsertStreamerTotal c n now rows).find?
          (fun r => decide (r.channel = cq))).map
        StreamerRow.total_meows).getD 0 =
      ((rows.find? (fun r => decide (r.channel = cq))).map
        StreamerRow.total_meows).getD 0 + (if c = cq then n else 0) := by
  intro rows
  induction rows with
  | nil =>
    by_cases hq : c = cq
    · simp [upsertStreamerTotal, hq]
    · simp [upsertStreamerTotal, hq]
  | cons r rs ih =>
    by_cases hm : r.channel = c
    · by_cases hq : c = cq
      · simp [upsertStreamerTotal, if_pos hm, List.find?_cons_of_pos, hm, hq]
      · have hr : ¬ r.channel = cq := by rw [hm]; exact hq
        simp only [upsertStreamerTotal, if_pos hm]
        rw [List.find?_cons_of_neg _ (by simp [hr]),
          List.find?_cons_of_neg _ (by simp [hr])]
        simp [hq]
    · by_cases hr : r.channel = cq
      · simp only [upsertStreamerTotal, if_neg hm]
        rw [List.find?_cons_of_pos _ (by simp [hr]),
          List.find?_cons_of_pos _ (by simp [hr])]
        have hq : ¬ c = cq := by
          intro hcq
          exact hm (by rw [hr, hcq])
        simp [hq]
      · simp only [upsertStreamerTotal, if_neg hm]
        rw [List.find?_cons_of_neg _ (by simp [hr]),
          List.find?_cons_of_neg _ (by simp [hr])]
        exact ih

theorem globalTotal_lookup_upsert (u : String) (n : Nat) (now : String) :
    ∀ rows : List GlobalStatsRow,
      (((upsertGlobalStats u n now rows).find?
          (fun r => decide (r.user_id = u))).map
        GlobalStatsRow.total_meows).getD 0 =
      ((rows.find? (fun r => decide (r.user_id = u))).map
        GlobalStatsRow.total_meows).getD 0 + n := by
  intro rows
  induction rows with
  | nil => simp [upsertGlobalStats]
  | cons r rs ih =>
    by_cases hm : r.user_id = u
    · simp [upsertGlobalStats, if_pos hm, List.find?_cons_of_pos, hm]
    · simp only [upsertGlobalStats, if_neg hm]
      rw [List.find?_cons_of_neg _ (by simp [hm]),
        List.find?_cons_of_neg _ (by simp [hm])]
      exact ih

theorem globalTotal_lookup_setChannelsCount (u uq : String) (k : Nat) :
    ∀ rows : List GlobalStatsRow,
      (((setChannelsCount u k rows).find?
          (fun r => decide (r.user_id = uq))).map
        GlobalStatsRow.total_meows).getD 0 =
      ((rows.find? (fun r => decide (r.user_id = uq))).map
        GlobalStatsRow.total_meows).getD 0 := by
  intro rows
  induction rows with
  | nil => simp [setChannelsCount]
  | cons r rs ih =>
    simp only [setChannelsCount, List.map_cons] at ih ⊢
    by_cases hq : r.user_id = uq
    · split <;> simp [hq]
    · rw [show List.find? (fun x : GlobalStatsRow => decide (x.user_id = uq))
          (r :: rs) =
          List.find? (fun x : GlobalStatsRow => decide (x.user_id = uq)) rs from
        List.find?_cons_of_neg _ (by simp [hq])]
      split
      · rw [List.find?_cons_of_neg]
        · exact ih
        · simp [hq]
      · rw [List.find?_cons_of_neg]
        · exact ih
        · simp [hq]

theorem userSum_upsert (cq u c : String) (n : Nat) (now : String) :
    ∀ rows : List UserMeowRow,
      (((upsertUserMeow u c n now rows).filter
          (fun r => decide (r.channel = cq))).map
        UserMeowRow.meow_count).sum =
      ((rows.filter (fun r => decide (r.channel = cq))).map
        UserMeowRow.meow_count).sum + (if c = cq then n else 0) := by
  intro rows
  induction rows with
  | nil =>
    by_cases hq : c = cq
    · simp [upsertUserMeow, List.filter_cons, hq]
    · simp [upsertUserMeow, List.filter_cons, hq]
  | cons r rs ih =>
    by_cases hm : r.user_id = u ∧ r.channel = c
    · by_cases hq : c = cq
      · have hr : r.channel = cq := by rw [hm.2, hq]
        simp only [upsertUserMeow, if_pos hm]
        simp [List.filter_cons, hr, hq]
        omega
      · have hr : ¬ r.channel = cq := by rw [hm.2]; exact hq
        simp only [upsertUserMeow, if_pos hm]
        simp [List.filter_cons, hr, hq]
    · by_cases hr : r.channel = cq
      · simp only [upsertUserMeow, if_neg hm]
        simp [List.filter_cons, hr, ih]
        omega
      · simp only [upsertUserMeow, if_neg hm]
        simp [List.filter_cons, hr, ih]

theorem applyCalls_streamer (cq : String) :
    ∀ (calls : List MeowCall) (db : MeowDB),
      getStreamerTotal cq (applyCalls calls db) =
        getStreamerTotal cq db + sumForChannel cq calls := by
  intro calls
  induction calls with
  | nil => intro db; simp [applyCalls, sumForChannel]
  | cons k ks ih =>
    intro db
    have hstep : getStreamerTotal cq
        (add_meow k.now k.user k.channel k.amount db).1 =
        getStreamerTotal cq db + (if k.channel = cq then k.amount else 0) :=
      streamerTotal_lookup_upsert k.channel cq k.amount k.now db.streamer_totals
    have hsum : sumForChannel cq (k :: ks) =
        (if k.channel = cq then k.amount else 0) + sumForChannel cq ks := by
      by_cases hc : k.channel = cq
      · simp [sumForChannel, List.filter_cons, hc]
      · simp [sumForChannel, List.filter_cons, hc]
    rw [show applyCalls (k :: ks) db =
        applyCalls ks (add_meow k.now k.user k.channel k.amount db).1 from rfl,
      ih, hstep, hsum]
    omega

theorem applyCalls_userSum (cq : String) :
    ∀ (calls : List MeowCall) (db : MeowDB),
      userMeowSumForChannel cq (applyCalls calls db) =
        userMeowSumForChannel cq db + sumForChannel cq calls := by
  intro calls
  induction calls with
  | nil => intro db; simp [applyCalls, sumForChannel]
  | cons k ks ih =>
    intro db
    have hstep : userMeowSumForChannel cq
        (add_meow k.now k.user k.channel k.amount db).1 =
        userMeowSumForChannel cq db +
          (if k.channel = cq then k.amount else 0) :=
      userSum_upsert cq k.user k.channel k.amount k.now db.user_meows
    have hsum : sumForChannel cq (k :: ks) =
        (if k.channel = cq then k.amount else 0) + sumForChannel cq ks := by
      by_cases hc : k.channel = cq
      · simp [sumForChannel, List.filter_cons, hc]
      · simp [sumForChannel, List.filter_cons, hc]
    rw [show applyCalls (k :: ks) db =
        applyCalls ks (add_meow k.now k.user k.channel k.amount db).1 from rfl,
      ih, hstep, hsum]
    omega

/-- C1 counterexample: after the first of the two transactions of one
`add_meow("u1", "c1", 1)` call on an empty store — a state the storage
exposes, since the call commits it before opening the second connection —
the user-channel counter and the channel total are already incremented
while the user's global total is not: the three sub-updates are observable
partially applied. -/
theorem add_meow_atomicity_counterexample :
    add_meow_txn1 "t" "u1" "c1" 1 emptyDB ∈ addMeowCommits "t" "u1" "c1" 1 emptyDB
    ∧ getUserMeows "u1" "c1" (add_meow_txn1 "t" "u1" "c1" 1 emptyDB) = 1
    ∧ getStreamerTotal "c1" (add_meow_txn1 "t" "u1" "c1" 1 emptyDB) = 1
    ∧ getGlobalTotal "u1" (add_meow_txn1 "t" "u1" "c1" 1 emptyDB) = 0 := by
  refine ⟨List.mem_cons_self _ _, ?_, ?_, ?_⟩ <;> decide

/-- C1 (amended): `add_meow` runs two transactions, not one atomic unit.
The `user_meows` and `streamer_totals` increments are committed together
(every committed state of the call carries both), while the
`user_global_stats` update belongs to a second, separate transaction: the
first committed state leaves the user's global total unchanged, and only
the final state carries all three updates. -/
theorem add_meow_two_transaction_atomicity (now u c : String) (n : Nat)
    (db : MeowDB) :
    (∀ s ∈ addMeowCommits now u c n db,
       getUserMeows u c s = getUserMeows u c db + n
       ∧ getStreamerTotal c s = getStreamerTotal c db + n)
    ∧ getGlobalTotal u (add_meow_txn1 now u c n db) = getGlobalTotal u db
    ∧ getGlobalTotal u (add_meow now u c n db).1 = getGlobalTotal u db + n := by
  have hu : getUserMeows u c (add_meow_txn1 now u c n db) =
      getUserMeows u c db + n :=
    userMeows_lookup_upsert u c n now db.user_meows
  have hs : getStreamerTotal c (add_meow_txn1 now u c n db) =
      getStreamerTotal c db + n := by
    have := streamerTotal_lookup_upsert c c n now db.streamer_totals
    simpa using this
  refine ⟨?_, rfl, ?_⟩
  · intro s hmem
    rcases List.mem_cons.mp hmem with h | h
    · subst h; exact ⟨hu, hs⟩
    · rcases List.mem_cons.mp h with h | h
      · subst h
        exact ⟨hu, hs⟩
      · exact absurd h (List.not_mem_nil s)
  · have h1 := globalTotal_lookup_setChannelsCount u u
      (distinctChannelCount u (add_meow_txn1 now u c n db).user_meows)
      (upsertGlobalStats u n now (add_meow_txn1 now u c n db).user_global_stats)
    have h2 := globalTotal_lookup_upsert u n now
      (add_meow_txn1 now u c n db).user_global_stats
    exact h1.trans h2

/-- Witness for the amended C1 at a concrete call on the empty store. -/
theorem add_meow_two_transaction_atomicity_witness :
    (getUserMeows "u1" "c1" (add_meow_txn1 "t" "u1" "c1" 2 emptyDB) =
      getUserMeows "u1" "c1" emptyDB + 2
    ∧ getStreamerTotal "c1" (add_meow_txn1 "t" "u1" "c1" 2 emptyDB) =
      getStreamerTotal "c1" emptyDB + 2)
    ∧ getGlobalTotal "u1" (add_meow "t" "u1" "c1" 2 emptyDB).1 =
      getGlobalTotal "u1" emptyDB + 2 :=
  ⟨(add_meow_two_transaction_atomicity "t" "u1" "c1" 2 emptyDB).1
      (add_meow_txn1 "t" "u1" "c1" 2 emptyDB) (List.mem_cons_self _ _),
   (add_meow_two_transaction_atomicity "t" "u1" "c1" 2 emptyDB).2.2⟩

/-- C7: starting from the empty store, after any sequence of `add_meow`
calls the channel total equals the sum of the amounts passed for that
channel, which in turn equals the sum of the per-user counters of that
channel: the increments compose and none is lost. -/
theorem channel_total_is_sum_of_amounts :
    ∀ (calls : List MeowCall) (cq : String),
      getStreamerTotal cq (applyCalls calls emptyDB) = sumForChannel cq calls
      ∧ getStreamerTotal cq (applyCalls calls emptyDB) =
          userMeowSumForChannel cq (applyCalls calls emptyDB) := by
  intro calls cq
  have h1 := applyCalls_streamer cq calls emptyDB
  have h2 := applyCalls_userSum cq calls emptyDB
  have hz1 : getStreamerTotal cq emptyDB = 0 := rfl
  have hz2 : userMeowSumForChannel cq emptyDB = 0 := rfl
  constructor
  · rw [h1, hz1]; omega
  · rw [h1, h2, hz1, hz2]

theorem mem_insertByTotal (x y : String × Nat) :
    ∀ l : List (String × Nat), y ∈ insertByTotal x l ↔ y = x ∨ y ∈ l := by
  intro l
  induction l with
  | nil => simp [insertByTotal]
  | cons z zs ih =>
    by_cases hz : z.2 ≤ x.2
    · simp [insertByTotal, if_pos hz]
    · simp [insertByTotal, if_neg hz, ih]
      tauto

theorem mem_sortByTotalDesc (y : String × Nat) :
    ∀ l : List (String × Nat), y ∈ sortByTotalDesc l ↔ y ∈ l := by
  intro l
  induction l with
  | nil => simp [sortByTotalDesc]
  | cons z zs ih =>
    simp [sortByTotalDesc, mem_insertByTotal, ih]

/-- C5: `load_approved_channels_from_db` returns exactly the union of the
channels flagged `join_approved`, the channels flagged `global_access`,
and the channels with a nonzero `streamer_totals` total; in particular a
channel with total 5 and no settings row at all is included. -/
theorem load_authorized_channels_union :
    (∀ (db : MeowDB) (ch : String),
      ch ∈ load_approved_channels_from_db db ↔
        (∃ r ∈ db.channel_settings, r.channel = ch ∧ r.join_approved = true)
        ∨ (∃ r ∈ db.channel_settings, r.channel = ch ∧ r.global_access = true)
        ∨ (∃ r ∈ db.streamer_totals, r.channel = ch ∧ r.total_meows ≠ 0))
    ∧ "x" ∈ load_approved_channels_from_db
        { user_meows := [],
          streamer_totals :=
            [{ channel := "x", total_meows := 5, first_meow_date := "d",
               last_meow_date := "d" }],
          user_global_stats := [], channel_settings := [] } := by
  constructor
  · intro db ch
    simp only [load_approved_channels_from_db, List.mem_dedup, List.mem_append,
      List.mem_map, List.mem_filter, decide_eq_true_eq, Nat.pos_iff_ne_zero]
    constructor
    · rintro ((⟨a, ⟨ha, hp⟩, hch⟩ | ⟨a, ⟨ha, hp⟩, hch⟩) | ⟨a, ⟨ha, hp⟩, hch⟩)
      · exact Or.inl ⟨a, ha, hch, hp⟩
      · exact Or.inr (Or.inl ⟨a, ha, hch, hp⟩)
      · exact Or.inr (Or.inr ⟨a, ha, hch, hp⟩)
    · rintro (⟨a, ha, hch, hp⟩ | ⟨a, ha, hch, hp⟩ | ⟨a, ha, hch, hp⟩)
      · exact Or.inl (Or.inl ⟨a, ⟨ha, hp⟩, hch⟩)
      · exact Or.inl (Or.inr ⟨a, ⟨ha, hp⟩, hch⟩)
      · exact Or.inr ⟨a, ⟨ha, hp⟩, hch⟩
  · decide

/-- C8: the two allow-list channels pass `has_global_access` whatever the
stored settings are, and every `streamer_totals` row of an allow-list
channel passes the global-leaderboard row selection (and hence appears in
the sorted leaderboard before the `LIMIT` truncation) irrespective of its
`global_access` column. -/
theorem allow_list_always_global :
    (∀ (db : MeowDB) (c : String), c ∈ defaultChannels →
      has_global_access c db = true)
    ∧ (∀ (db : MeowDB) (r : StreamerRow), r ∈ db.streamer_totals →
        r.channel ∈ defaultChannels →
        (r.channel, r.total_meows) ∈ globalLeaderboardRows db
        ∧ (r.channel, r.total_meows) ∈
            sortByTotalDesc (globalLeaderboardRows db)) := by
  constructor
  · intro db c hc
    have hc2 : c = "meowcounterbot" ∨ c = "snorlaxbuffet" := by
      simpa [defaultChannels] using hc
    have hlower : strLower c ∈ defaultChannels := by
      rcases hc2 with h | h <;> subst h <;> decide
    simp [has_global_access, hlower]
  · intro db r hr hc
    have hmem : (r.channel, r.total_meows) ∈ globalLeaderboardRows db := by
      simp only [globalLeaderboardRows, List.mem_map]
      refine ⟨r, ?_, rfl⟩
      simp only [List.mem_filter]
      exact ⟨hr, by simp [hc]⟩
    exact ⟨hmem, (mem_sortByTotalDesc _ _).mpr hmem⟩

/-- Witness for C8: a store that explicitly stores `global_access = 0` for
`"meowcounterbot"` yet the channel passes both checks. -/
theorem allow_list_always_global_witness :
    has_global_access "meowcounterbot"
      { user_meows := [],
        streamer_totals :=
          [{ channel := "meowcounterbot", total_meows := 7,
             first_meow_date := "d", last_meow_date := "d" }],
        user_global_stats := [],
        channel_settings :=
          [{ channel := "meowcounterbot", global_access := false,
             bot_enabled := true, join_approved := false,
             setup_date := none }] } = true
    ∧ ("meowcounterbot", 7) ∈ globalLeaderboardRows
      { user_meows := [],
        streamer_totals :=
          [{ channel := "meowcounterbot", total_meows := 7,
             first_meow_date := "d", last_meow_date := "d" }],
        user_global_stats := [],
        channel_settings :=
          [{ channel := "meowcounterbot", global_access := false,
             bot_enabled := true, join_approved := false,
             setup_date := none }] } :=
  ⟨allow_list_always_global.1 _ "meowcounterbot" (by decide),
   (allow_list_always_global.2 _
      { channel := "meowcounterbot", total_meows := 7,
        first_meow_date := "d", last_meow_date := "d" }
      (List.mem_cons_self _ _) (by decide)).1⟩

theorem find_opt_into_global (c : String) :
    ∀ rows : List SettingsRow,
      (opt_into_global c rows).find? (fun r => decide (r.channel = c)) =
        some { channel := c, global_access := true, bot_enabled := true,
               join_approved := false, setup_date := none } := by
  intro rows
  induction rows with
  | nil => simp [opt_into_global]
  | cons r rs ih =>
    by_cases hm : r.channel = c
    · simp [opt_into_global, if_pos hm]
    · simp only [opt_into_global, if_neg hm]
      rw [List.find?_cons_of_neg _ (by simp [hm])]
      exact ih

/-- C9: `opt_into_global` uses `INSERT OR REPLACE` naming only the channel
and `global_access`, so for a channel whose settings row has
`join_approved = 1` the call replaces the row by one with the default
`join_approved = 0`, and `is_channel_approved` afterwards returns false. -/
theorem opt_into_global_resets_join_approved (db : MeowDB) (c : String)
    (r : SettingsRow)
    (_hfind : db.channel_settings.find? (fun x => decide (x.channel = c)) = some r)
    (_happr : r.join_approved = true) :
    (opt_into_global c db.channel_settings).find?
        (fun x => decide (x.channel = c)) =
      some { channel := c, global_access := true, bot_enabled := true,
             join_approved := false, setup_date := none }
    ∧ is_channel_approved c
        { db with channel_settings := opt_into_global c db.channel_settings } =
      false := by
  refine ⟨find_opt_into_global c db.channel_settings, ?_⟩
  simp [is_channel_approved, find_opt_into_global c db.channel_settings]

/-- Witness for C9 at a store holding an approved row for `"c1"`. -/
theorem opt_into_global_resets_join_approved_witness :
    is_channel_approved "c1"
      { user_meows := [], streamer_totals := [], user_global_stats := [],
        channel_settings := opt_into_global "c1"
          [{ channel := "c1", global_access := false, bot_enabled := true,
             join_approved := true, setup_date := none }] } = false :=
  (opt_into_global_resets_join_approved
    { user_meows := [], streamer_totals := [], user_global_stats := [],
      channel_settings :=
        [{ channel := "c1", global_access := false, bot_enabled := true,
           join_approved := true, setup_date := none }] }
    "c1"
    { channel := "c1", global_access := false, bot_enabled := true,
      join_approved := true, setup_date := none }
    (by decide) rfl).2

theorem pollHandleChannel_invariant (c : String) (st : ConsumerState)
    (info : ChannelInfo)
    (h1 : st.joins.count c ≤ 1)
    (h2 : c ∉ st.processed → st.joins.count c = 0)
    (h3 : st.persists = st.joins) :
    (pollHandleChannel st info).joins.count c ≤ 1
    ∧ (c ∉ (pollHandleChannel st info).processed →
        (pollHandleChannel st info).joins.count c = 0)
    ∧ (pollHandleChannel st info).persists = (pollHandleChannel st info).joins := by
  simp only [pollHandleChannel]
  split_ifs with hp hcon hne
  · exact ⟨h1, h2, h3⟩
  · refine ⟨h1, ?_, h3⟩
    intro hcp
    exact h2 (fun hcmem => hcp (List.mem_cons_of_mem _ hcmem))
  · by_cases hceq : c = strLower info.channel
    · have hc0 : st.joins.count c = 0 := h2 (by rw [hceq]; exact hp)
      refine ⟨?_, ?_, by simp [h3]⟩
      · simp [List.count_append, hc0, hceq]
        rw [← hceq]
        exact hc0
      · intro hcp
        exact absurd (by rw [hceq]; exact List.mem_cons_self _ _ : c ∈
          strLower info.channel :: st.processed) hcp
    · have hcnt : (st.joins ++ [strLower info.channel]).count c =
          st.joins.count c := by
        simp [List.count_append, List.count_singleton]
        intro hx
        exact absurd hx.symm hceq
      refine ⟨by rw [hcnt]; exact h1, ?_, by simp [h3]⟩
      intro hcp
      rw [hcnt]
      exact h2 (fun hcmem => hcp (List.mem_cons_of_mem _ hcmem))
  · exact ⟨h1, h2, h3⟩

theorem pollBatch_invariant (c : String) :
    ∀ (infos : List ChannelInfo) (st : ConsumerState),
      st.joins.count c ≤ 1 →
      (c ∉ st.processed → st.joins.count c = 0) →
      st.persists = st.joins →
      (pollBatch st infos).joins.count c ≤ 1
      ∧ (c ∉ (pollBatch st infos).processed →
          (pollBatch st infos).joins.count c = 0)
      ∧ (pollBatch st infos).persists = (pollBatch st infos).joins := by
  intro infos
  induction infos with
  | nil => intro st h1 h2 h3; exact ⟨h1, h2, h3⟩
  | cons i is ih =>
    intro st h1 h2 h3
    have hstep := pollHandleChannel_invariant c st i h1 h2 h3
    exact ih (pollHandleChannel st i) hstep.1 hstep.2.1 hstep.2.2

theorem runPolls_invariant (c : String) :
    ∀ (batches : List (List ChannelInfo)) (st : ConsumerState),
      st.joins.count c ≤ 1 →
      (c ∉ st.processed → st.joins.count c = 0) →
      st.persists = st.joins →
      (runPolls st batches).joins.count c ≤ 1
      ∧ (runPolls st batches).persists = (runPolls st batches).joins := by
  intro batches
  induction batches with
  | nil => intro st h1 _ h3; exact ⟨h1, h3⟩
  | cons b bs ih =>
    intro st h1 h2 h3
    have hstep := pollBatch_invariant c b st h1 h2 h3
    exact ih (pollBatch st b) hstep.1 hstep.2.1 hstep.2.2

/-- C6: over any sequence of drained batches handled by one poll-thread
lifetime, each channel is joined at most once and its
`join_approved`/`global_access` persistence is written at most once: the
lifetime `processed_channels` set records the channel before the join is
issued, so every later delivery of the same channel is a no-op. -/
theorem reconciler_joins_at_most_once :
    ∀ (connected : List String) (db : MeowDB)
      (batches : List (List ChannelInfo)) (c : String),
      (runPolls (initConsumer connected db) batches).joins.count c ≤ 1
      ∧ (runPolls (initConsumer connected db) batches).persists.count c ≤ 1 := by
  intro connected db batches c
  have h := runPolls_invariant c batches (initConsumer connected db)
    (by simp [initConsumer]) (by intro _; simp [initConsumer])
    (by simp [initConsumer])
  exact ⟨h.1, by rw [h.2]; exact h.1⟩

theorem pyFindAux_none (pat text : List Char) :
    ∀ (fuel start : Nat), text.length + 1 - start ≤ fuel →
      pyFindAux pat text fuel start = none →
      ∀ q, start ≤ q → q ≤ text.length → occursAt pat text q = false := by
  intro fuel
  induction fuel with
  | zero =>
    intro start hfuel _ q hq1 hq2
    omega
  | succ fuel ih =>
    intro start hfuel hnone q hq1 hq2
    by_cases hgt : start > text.length
    · omega
    · simp only [pyFindAux, if_neg hgt] at hnone
      by_cases hocc : occursAt pat text start = true
      · rw [if_pos hocc] at hnone
        cases hnone
      · rw [if_neg hocc] at hnone
        rcases Nat.eq_or_lt_of_le hq1 with heq | hlt
        · rw [← heq]
          simpa using hocc
        · exact ih (start + 1) (by omega) hnone q hlt hq2

theorem pyFindAux_some (pat text : List Char) :
    ∀ (fuel start pos : Nat),
      pyFindAux pat text fuel start = some pos →
      start ≤ pos ∧ pos ≤ text.length ∧ occursAt pat text pos = true ∧
      ∀ q, start ≤ q → q < pos → occursAt pat text q = false := by
  intro fuel
  induction fuel with
  | zero => intro start pos h; simp [pyFindAux] at h
  | succ fuel ih =>
    intro start pos h
    by_cases hgt : start > text.length
    · simp [pyFindAux, if_pos hgt] at h
    · simp only [pyFindAux, if_neg hgt] at h
      by_cases hocc : occursAt pat text start = true
      · rw [if_pos hocc] at h
        injection h with hsp
        subst hsp
        refine ⟨le_refl _, by omega, hocc, ?_⟩
        intro q hq1 hq2
        exact absurd hq2 (by omega)
      · rw [if_neg hocc] at h
        obtain ⟨ha, hb, hc, hd⟩ := ih (start + 1) pos h
        refine ⟨by omega, hb, hc, ?_⟩
        intro q hq1 hq2
        rcases Nat.eq_or_lt_of_le hq1 with heq | hlt
        · rw [← heq]
          simpa using hocc
        · exact hd q hlt hq2

theorem pyFind_none_all (pat text : List Char) (start : Nat)
    (h : pyFind pat text start = none) :
    ∀ q, start ≤ q → q ≤ text.length → occursAt pat text q = false :=
  pyFindAux_none pat text (text.length + 1 - start) start (le_refl _) h

theorem pyFind_some_least (pat text : List Char) (start pos : Nat)
    (h : pyFind pat text start = some pos) :
    start ≤ pos ∧ pos ≤ text.length ∧ occursAt pat text pos = true ∧
    ∀ q, start ≤ q → q < pos → occursAt pat text q = false :=
  pyFindAux_some pat text (text.length + 1 - start) start pos h

theorem countLoopAux_card (pat text : List Char) :
    ∀ (fuel start count : Nat), text.length + 1 - start ≤ fuel →
      countLoopAux pat text fuel start count =
        count + (occSet pat text start).card := by
  intro fuel
  induction fuel with
  | zero =>
    intro start count hfuel
    have hempty : occSet pat text start = ∅ := by
      apply Finset.eq_empty_of_forall_not_mem
      intro p hp
      simp only [occSet, Finset.mem_filter, Finset.mem_range] at hp
      omega
    simp [countLoopAux, hempty]
  | succ fuel ih =>
    intro start count hfuel
    cases hp : pyFind pat text start with
    | none =>
      have hempty : occSet pat text start = ∅ := by
        apply Finset.eq_empty_of_forall_not_mem
        intro p hmem
        simp only [occSet, Finset.mem_filter, Finset.mem_range] at hmem
        have hfalse := pyFind_none_all pat text start hp p hmem.2.1 (by omega)
        rw [hmem.2.2] at hfalse
        cases hfalse
      simp [countLoopAux, hp, hempty]
    | some pos =>
      obtain ⟨ha, hb, hc, hd⟩ := pyFind_some_least pat text start pos hp
      have hins : occSet pat text start =
          insert pos (occSet pat text (pos + 1)) := by
        ext q
        simp only [occSet, Finset.mem_filter, Finset.mem_range,
          Finset.mem_insert]
        constructor
        · rintro ⟨hq1, hq2, hq3⟩
          by_cases hqp : q = pos
          · exact Or.inl hqp
          · refine Or.inr ⟨hq1, ?_, hq3⟩
            by_contra hcon
            have hfalse : occursAt pat text q = false := hd q hq2 (by omega)
            rw [hq3] at hfalse
            cases hfalse
        · rintro (rfl | ⟨hq1, hq2, hq3⟩)
          · exact ⟨by omega, ha, hc⟩
          · exact ⟨hq1, by omega, hq3⟩
      have hnotmem : pos ∉ occSet pat text (pos + 1) := by
        simp only [occSet, Finset.mem_filter, Finset.mem_range]
        intro hcon
        exact absurd hcon.2.1 (by omega)
      rw [show countLoopAux pat text (fuel + 1) start count =
          countLoopAux pat text fuel (pos + 1) (count + 1) from by
        simp [countLoopAux, hp]]
      rw [ih (pos + 1) (count + 1) (by omega), hins,
        Finset.card_insert_of_not_mem hnotmem]
      omega

theorem occursAt_length_false (text : List Char) :
    occursAt meowPat text text.length = false := by
  simp [occursAt, List.drop_length, meowPat]

/-- C3: `_count_overlapping_meows` returns exactly the number of positions
of the lowercase-folded text at which the pattern starts — the resume-at
`p + 1` loop counts every start position, so overlapping occurrences each
count (case-insensitively, and the return value is a count, hence
non-negative); on the generic loop, a maximally overlapping repetition
such as pattern `"aa"` over `"aaaa"` yields 3, one per valid start
position, not 2. -/
theorem count_overlapping_counts_all_start_positions :
    (∀ text : List Char,
      count_overlapping_meows text =
        patternStartCount meowPat (text.map Char.toLower))
    ∧ countLoop ['a', 'a'] ['a', 'a', 'a', 'a'] 0 0 = 3 := by
  constructor
  · intro text
    have h := countLoopAux_card meowPat (text.map Char.toLower)
      ((text.map Char.toLower).length + 1 - 0) 0 0 (by omega)
    rw [show count_overlapping_meows text =
        countLoopAux meowPat (text.map Char.toLower)
          ((text.map Char.toLower).length + 1 - 0) 0 0 from rfl, h,
      Nat.zero_add]
    simp only [occSet, patternStartCount]
    have hnotL : ¬(0 ≤ (text.map Char.toLower).length ∧
        occursAt meowPat (text.map Char.toLower)
          (text.map Char.toLower).length = true) := by
      rintro ⟨-, hcon⟩
      rw [occursAt_length_false (text.map Char.toLower)] at hcon
      cases hcon
    rw [Finset.range_succ, Finset.filter_insert, if_neg hnotL]
    congr 1
    apply Finset.filter_congr
    intro p _
    simp
  · decide
